import Mathlib

set_option maxRecDepth 8000

/-!
Verification of the bash hash-table recovery engine
(`volatility/plugins/linux/bash_hash.py`).

The development shallowly embeds the plugin: the Layout Catalog
(`bash_hash_vtypes_32` / `bash_hash_vtypes_64`), the candidate scanner,
the structure validator (`_bash_hash_table.is_valid`), the bucket-chain
traversal of `linux_bash_hash.calculate`, and the per-process driver loop.
The Address-Space Reader and the process enumeration are external
collaborators of the plugin; they are modelled from their contracts in the
specification.
-/

/-- Modelled from the spec: the Address-Space Reader abstracts a
byte-addressable, possibly-sparse memory region.  We model it as a function
from byte addresses to `Option` byte values; `none` means the address is
unmapped (reading it is a `ReadFailure`). -/
def AddrSpace : Type := Nat → Option Nat

/-- Modelled from the spec: `resolveAddress(pointerValue)` succeeds exactly
when the raw pointer value refers to a mapped region. -/
def isMapped (a : AddrSpace) (addr : Nat) : Bool := (a addr).isSome

/-- Modelled from the spec: `readBytes(offset, length)` returns exactly
`length` bytes or signals failure; the bytes are combined little-endian.
Returns `none` when any byte in the window is unmapped.  A stored cell is a
byte, so its value is taken mod 256. -/
def readLE (a : AddrSpace) (addr : Nat) : Nat → Option Nat
  | 0 => some 0
  | n + 1 =>
    match a addr, readLE a (addr + 1) n with
    | some b, some rest => some (b % 256 + 256 * rest)
    | _, _ => none

/-- Interpretation of a 32-bit little-endian cell as a signed C `int`
(the `['int']` vtype member used for `nbuckets`, `nentries`,
`times_found` and `flags`). -/
def toInt32 (v : Nat) : Int :=
  if v < 2147483648 then (v : Int) else (v : Int) - 4294967296

/-- Read a 4-byte signed `int` field. -/
def readIntF (a : AddrSpace) (addr : Nat) : Option Int :=
  (readLE a addr 4).map toInt32

/-- Field offsets and pointer width of the three structure kinds, as given by
one entry set of the Layout Catalog (`bash_hash_vtypes_32/64`). -/
structure Layout where
  ptrW : Nat
  path : Nat
  flags : Nat
  next : Nat
  key : Nat
  data : Nat
  times_found : Nat
  bucket_array : Nat
  nbuckets : Nat
  nentries : Nat
  deriving DecidableEq

/-- The 32-bit Layout Catalog entry (`bash_hash_vtypes_32` in the source):
`_pathdata` has `path` at 0 and `flags` at 4; `bucket_contents` has `next` at
0, `key` at 4, `data` at 8 and `times_found` at 16; `_bash_hash_table` has
`bucket_array` at 0, `nbuckets` at 4 and `nentries` at 8; pointers are 4
bytes wide. -/
def bash_hash_vtypes_32 : Layout :=
  { ptrW := 4, path := 0, flags := 4,
    next := 0, key := 4, data := 8, times_found := 16,
    bucket_array := 0, nbuckets := 4, nentries := 8 }

/-- The 64-bit Layout Catalog entry (`bash_hash_vtypes_64` in the source):
`_pathdata` has `path` at 0 and `flags` at 8; `bucket_contents` has `next` at
0, `key` at 8, `data` at 16 and `times_found` at 28; `_bash_hash_table` has
`bucket_array` at 0, `nbuckets` at 8 and `nentries` at 12; pointers are 8
bytes wide. -/
def bash_hash_vtypes_64 : Layout :=
  { ptrW := 8, path := 0, flags := 8,
    next := 0, key := 8, data := 16, times_found := 28,
    bucket_array := 0, nbuckets := 8, nentries := 12 }

/-- A pointer field at address `addr` "is valid" when it can be read and its
value resolves to mapped memory (`Pointer.is_valid` through
`resolveAddress`). -/
def ptr_resolves (w : Layout) (a : AddrSpace) (addr : Nat) : Bool :=
  match readLE a addr w.ptrW with
  | some p => isMapped a p
  | none => false

/-- Comparison `field == v` on a signed `int` field; an unreadable field
compares unequal. -/
def int_is (a : AddrSpace) (addr : Nat) (v : Int) : Bool :=
  match readIntF a addr with
  | some x => x == v
  | none => false

/-- Comparison `field > v` on a signed `int` field; an unreadable field
fails the comparison. -/
def int_gt (a : AddrSpace) (addr : Nat) (v : Int) : Bool :=
  match readIntF a addr with
  | some x => v < x
  | none => false

/-- The chained comparison `0 <= flags <= 2` on a signed `int` field; an
unreadable field fails it. -/
def flags_in_range (a : AddrSpace) (addr : Nat) : Bool :=
  match readIntF a addr with
  | some x => decide (0 ≤ x ∧ x ≤ 2)
  | none => false

/-- `_bash_hash_table.is_valid` (source lines 78-85): the view at `off` is
valid when the object itself materializes at a mapped base offset, its
`bucket_array` pointer resolves, `nbuckets == 64` and `nentries > 1`. -/
def hash_is_valid (w : Layout) (a : AddrSpace) (off : Nat) : Bool :=
  isMapped a off &&
  ptr_resolves w a (off + w.bucket_array) &&
  int_is a (off + w.nbuckets) 64 &&
  int_gt a (off + w.nentries) 1

/-- The byte offsets visited by the scan loop
`for off in range(heap_vma.vm_start, heap_vma.vm_end)` (source line 137). -/
def scanned_offsets (s e : Nat) : List Nat := List.range' s (e - s)

/-- The prefilter at one offset (source lines 139-142): read 4 bytes at
`off + nbuckets_offset`, unpack as `<I`, and keep the offset exactly when
the value is 64.  A read failure excludes the offset. -/
def prefilter (w : Layout) (a : AddrSpace) (off : Nat) : Bool :=
  match readLE a (off + w.nbuckets) 4 with
  | some v => v == 64
  | none => false

/-- The candidate offsets produced by the scan loop: every offset of the
heap range that passes the prefilter. -/
def candidate_offsets (w : Layout) (a : AddrSpace) (s e : Nat) : List Nat :=
  (scanned_offsets s e).filter (prefilter w a)

/-- Loop-continuation predicate of the chain walk (source line 151):
`bucket.times_found > 0 and bucket.data.is_valid() and bucket.key.is_valid()`.
A failed dereference of the node makes every conjunct fail. -/
def bucket_continue (w : Layout) (a : AddrSpace) (ent : Nat) : Bool :=
  int_gt a (ent + w.times_found) 0 &&
  ptr_resolves w a (ent + w.data) &&
  ptr_resolves w a (ent + w.key)

/-- Per-entry surfacing test (source line 154):
`pdata.path.is_valid() and (0 <= pdata.flags <= 2)` where `pdata` is the
dereferenced `data` pointer. -/
def entry_surfaced (w : Layout) (a : AddrSpace) (ent : Nat) : Bool :=
  match readLE a (ent + w.data) w.ptrW with
  | some d => ptr_resolves w a (d + w.path) && flags_in_range a (d + w.flags)
  | none => false

/-- The `while` loop of source lines 151-157, walking one bucket chain from
the node at address `ent`.  The result is the list of surfaced node
addresses.  The loop of the source has no structural bound, so the
embedding takes an explicit fuel; theorems quantify over sufficient fuel. -/
def walk_bucket (w : Layout) (a : AddrSpace) : Nat → Nat → List Nat
  | 0, _ => []
  | fuel + 1, ent =>
    if bucket_continue w a ent then
      (if entry_surfaced w a ent then [ent] else []) ++
      (match readLE a (ent + w.next) w.ptrW with
       | some nxt => walk_bucket w a fuel nxt
       | none => [])
    else []

/-- The node addresses visited by the chain walk: every node at which the
loop body runs (i.e. at which the continuation predicate holds). -/
def visited_nodes (w : Layout) (a : AddrSpace) : Nat → Nat → List Nat
  | 0, _ => []
  | fuel + 1, ent =>
    if bucket_continue w a ent then
      ent ::
      (match readLE a (ent + w.next) w.ptrW with
       | some nxt => visited_nodes w a fuel nxt
       | none => [])
    else []

/-- Whether the chain walk starting at `ent` exits its loop within `fuel`
iterations (by hitting a node that fails the continuation predicate, or a
node whose `next` pointer cannot be read). -/
def walk_stops (w : Layout) (a : AddrSpace) : Nat → Nat → Bool
  | 0, _ => false
  | fuel + 1, ent =>
    if bucket_continue w a ent then
      match readLE a (ent + w.next) w.ptrW with
      | some nxt => walk_stops w a fuel nxt
      | none => true
    else true

/-- The address of the `k`-th node of the iterated `next` chain starting at
`ent`; `none` once the chain has failed (continuation predicate false, or
unreadable `next` pointer). -/
def chain_iter (w : Layout) (a : AddrSpace) (ent : Nat) : Nat → Option Nat
  | 0 => some ent
  | k + 1 =>
    match chain_iter w a ent k with
    | some e =>
      if bucket_continue w a e then readLE a (e + w.next) w.ptrW else none
    | none => none

/-- List concatenation of the images of `f`, in order (the shape of the
nested `for` loops of `calculate`). -/
def flatMapL {α β : Type} (f : α → List β) : List α → List β
  | [] => []
  | x :: xs => f x ++ flatMapL f xs

/-- Results contributed by one validated candidate offset (source lines
144-157): if the materialized `_bash_hash_table` is valid, read the
64-element bucket array at `bucket_array` and walk each chain; otherwise no
results. -/
def table_results (w : Layout) (a : AddrSpace) (fuel off : Nat) : List Nat :=
  if hash_is_valid w a off then
    match readLE a (off + w.bucket_array) w.ptrW with
    | some ba =>
      flatMapL
        (fun i =>
          match readLE a (ba + i * w.ptrW) w.ptrW with
          | some h => walk_bucket w a fuel h
          | none => [])
        (List.range 64)
    | none => []
  else []

/-- The whole per-heap scan (source lines 137-157): every candidate offset
of the half-open heap range contributes its table results. -/
def scan_heap (w : Layout) (a : AddrSpace) (fuel s e : Nat) : List Nat :=
  flatMapL (table_results w a fuel) (candidate_offsets w a s e)

/-- Modelled from the spec: a process descriptor as consumed by the driver
loop — a pid, a name (`comm`), an optionally obtainable address space, and
an optionally locatable heap region `(vm_start, vm_end)`. -/
structure Proc where
  pid : Nat
  comm : String
  addrSpace : Option AddrSpace
  heap : Option (Nat × Nat)

/-- The per-process body of `calculate` (source lines 112-157): skip the
process when its address space cannot be obtained; skip it when neither
`SCAN_ALL` is set nor its name is `bash`; skip it when no heap region is
found; otherwise scan its heap and pair each surfaced node with the
process. -/
def task_results (w : Layout) (fuel : Nat) (scanAll : Bool) (t : Proc) :
    List (Nat × Nat) :=
  match t.addrSpace with
  | none => []
  | some a =>
    if scanAll || t.comm == "bash" then
      match t.heap with
      | none => []
      | some (s, e) => (scan_heap w a fuel s e).map (fun ent => (t.pid, ent))
    else []

/-- The driver loop of `calculate`: iterate the enumerated tasks in order
and concatenate their results. -/
def calculate (w : Layout) (fuel : Nat) (scanAll : Bool) (ts : List Proc) :
    List (Nat × Nat) :=
  flatMapL (task_results w fuel scanAll) ts

/-- The logical projection of one surfaced node, as rendered by
`render_text`: its usage count (`times_found`), the byte content behind its
`key` pointer, and the byte content behind its `data.path` pointer. -/
def proj_entry (w : Layout) (a : AddrSpace) (ent : Nat) :
    Option Int × Option Nat × Option Nat :=
  (readIntF a (ent + w.times_found),
   match readLE a (ent + w.key) w.ptrW with
   | some p => a p
   | none => none,
   match readLE a (ent + w.data) w.ptrW with
   | some d =>
     match readLE a (d + w.path) w.ptrW with
     | some p => a p
     | none => none
   | none => none)

/-- The logical result sequence of one heap scan: the surfaced nodes in
order, each replaced by its logical projection. -/
def logical_results (w : Layout) (a : AddrSpace) (fuel s e : Nat) :
    List (Option Int × Option Nat × Option Nat) :=
  (scan_heap w a fuel s e).map (proj_entry w a)

/-- An everywhere-unmapped address space: every read is a `ReadFailure`. -/
def emptyAS : AddrSpace := fun _ => none

/-- Bytes of a `_bash_hash_table` under the 32-bit layout:
`bucket_array = 0x2000`, `nbuckets = 64`, `nentries = 2`. -/
def rtTableBytes : List Nat :=
  [0x00, 0x20, 0x00, 0x00, 0x40, 0x00, 0x00, 0x00, 0x02, 0x00, 0x00, 0x00]

/-- Bytes of the first chained `bucket_contents` node (32-bit layout):
`next = 0x3100`, `key = 0x4000`, `data = 0x5000`, `times_found = 3`. -/
def rtEntry1Bytes : List Nat :=
  [0x00, 0x31, 0x00, 0x00, 0x00, 0x40, 0x00, 0x00,
   0x00, 0x50, 0x00, 0x00, 0x00, 0x00, 0x00, 0x00,
   0x03, 0x00, 0x00, 0x00]

/-- Bytes of the second chained `bucket_contents` node (32-bit layout):
`next = 0` (end of chain), `key = 0x4100`, `data = 0x5100`,
`times_found = 1`. -/
def rtEntry2Bytes : List Nat :=
  [0x00, 0x00, 0x00, 0x00, 0x00, 0x41, 0x00, 0x00,
   0x00, 0x51, 0x00, 0x00, 0x00, 0x00, 0x00, 0x00,
   0x01, 0x00, 0x00, 0x00]

/-- Bytes of the first `_pathdata` (32-bit layout): `path = 0x6000`,
`flags = 0`. -/
def rtPd1Bytes : List Nat :=
  [0x00, 0x60, 0x00, 0x00, 0x00, 0x00, 0x00, 0x00]

/-- Bytes of the second `_pathdata` (32-bit layout): `path = 0x6100`,
`flags = 2`. -/
def rtPd2Bytes : List Nat :=
  [0x00, 0x61, 0x00, 0x00, 0x02, 0x00, 0x00, 0x00]

/-- A hand-constructed 32-bit memory image embedding one valid
`_bash_hash_table` at `0x1000` (`nbuckets = 64`, `nentries = 2`), whose
64-slot bucket array at `0x2000` has exactly one populated bucket (slot 0,
head `0x3000`); the chain holds two nodes with `times_found` 3 and 1, both
with mapped `key` and `data` targets, and `_pathdata` flags 0 and 2. -/
def rtImage : AddrSpace := fun a =>
  if 0x1000 ≤ a ∧ a < 0x100C then some (rtTableBytes.getD (a - 0x1000) 0)
  else if 0x2000 ≤ a ∧ a < 0x2100 then some (if a = 0x2001 then 0x30 else 0)
  else if 0x3000 ≤ a ∧ a < 0x3014 then some (rtEntry1Bytes.getD (a - 0x3000) 0)
  else if 0x3100 ≤ a ∧ a < 0x3114 then some (rtEntry2Bytes.getD (a - 0x3100) 0)
  else if a = 0x4000 ∨ a = 0x4100 then some 0x6B
  else if 0x5000 ≤ a ∧ a < 0x5008 then some (rtPd1Bytes.getD (a - 0x5000) 0)
  else if 0x5100 ≤ a ∧ a < 0x5108 then some (rtPd2Bytes.getD (a - 0x5100) 0)
  else if a = 0x6000 ∨ a = 0x6100 then some 0x2F
  else none

/-- Bytes of a self-referential `bucket_contents` node at `0x3000` (32-bit
layout): `next = 0x3000` (itself), `key = 0x4000`, `data = 0x5000`,
`times_found = 1`. -/
def cycEntryBytes : List Nat :=
  [0x00, 0x30, 0x00, 0x00, 0x00, 0x40, 0x00, 0x00,
   0x00, 0x50, 0x00, 0x00, 0x00, 0x00, 0x00, 0x00,
   0x01, 0x00, 0x00, 0x00]

/-- A 32-bit memory image whose single `bucket_contents` node at `0x3000`
points to itself through `next` while persistently satisfying the
loop-continuation predicate. -/
def cycImage : AddrSpace := fun a =>
  if 0x3000 ≤ a ∧ a < 0x3014 then some (cycEntryBytes.getD (a - 0x3000) 0)
  else if a = 0x4000 ∨ a = 0x5000 then some 0
  else none

/-- Whether every chain reachable from the (valid) table at `off` exits its
walk loop within `fuel` iterations. -/
def table_stops (w : Layout) (a : AddrSpace) (fuel off : Nat) : Bool :=
  if hash_is_valid w a off then
    match readLE a (off + w.bucket_array) w.ptrW with
    | some ba =>
      (List.range 64).all
        (fun i =>
          match readLE a (ba + i * w.ptrW) w.ptrW with
          | some h => walk_stops w a fuel h
          | none => true)
    | none => true
  else true

/-- Whether every chain reachable from the heap scan exits its walk loop
within `fuel` iterations. -/
def scan_stops (w : Layout) (a : AddrSpace) (fuel s e : Nat) : Bool :=
  (candidate_offsets w a s e).all (table_stops w a fuel)

/-- An abstract (width-independent) bucket entry: its usage count, its
`_pathdata` flags, and one byte of key and path string content. -/
structure AEntry where
  times_found : Nat
  flags : Nat
  keyB : Nat
  pathB : Nat
  deriving DecidableEq

/-- An abstract synthetic image: the logical content of one hash table,
as a list of bucket chains (one list of entries per bucket). -/
structure AImage where
  chains : List (List AEntry)
  deriving DecidableEq

/-- The abstract chain of bucket `b` (empty for out-of-range buckets). -/
def chainAt (A : AImage) (b : Nat) : List AEntry := A.chains.getD b []

/-- The abstract entry at position `k` of bucket `b`. -/
def entryAt (A : AImage) (b k : Nat) : AEntry :=
  (chainAt A b).getD k ⟨0, 0, 0, 0⟩

/-- Well-formedness of an abstract image for encoding: 64 buckets, at most
64 entries per chain, and `int`-encodable positive field values. -/
def wfA (A : AImage) : Bool :=
  (A.chains.length == 64) &&
  A.chains.all
    (fun c =>
      decide (c.length ≤ 64) &&
      c.all (fun ent =>
        decide (ent.times_found < 2 ^ 31) && decide (ent.flags < 2 ^ 31)))

/-- Encoded address of entry `k` of bucket `b`. -/
def entryAddr (b k : Nat) : Nat := 0x100000 + (b * 64 + k) * 64

/-- Encoded address of the key-string target of entry `k` of bucket `b`. -/
def keyAddr (b k : Nat) : Nat := 0x200000 + (b * 64 + k) * 64

/-- Encoded address of the `_pathdata` of entry `k` of bucket `b`. -/
def dataAddr (b k : Nat) : Nat := 0x300000 + (b * 64 + k) * 64

/-- Encoded address of the path-string target of entry `k` of bucket `b`. -/
def pathAddr (b k : Nat) : Nat := 0x400000 + (b * 64 + k) * 64

/-- Byte `j` of the little-endian encoding of `v`. -/
def leByte (v j : Nat) : Nat := v / 256 ^ j % 256

/-- Encoded `next` pointer of entry `k` of bucket `b`: the next entry of the
same chain, or 0 at the end of the chain. -/
def nextVal (A : AImage) (b k : Nat) : Nat :=
  if k + 1 < (chainAt A b).length then entryAddr b (k + 1) else 0

/-- Byte `j` of the encoded `bucket_contents` structure of entry `k` of
bucket `b`, laid out under `w`. -/
def entrySlotByte (w : Layout) (A : AImage) (b k j : Nat) : Nat :=
  if j < w.ptrW then leByte (nextVal A b k) j
  else if w.key ≤ j ∧ j < w.key + w.ptrW then leByte (keyAddr b k) (j - w.key)
  else if w.data ≤ j ∧ j < w.data + w.ptrW then leByte (dataAddr b k) (j - w.data)
  else if w.times_found ≤ j ∧ j < w.times_found + 4 then
    leByte (entryAt A b k).times_found (j - w.times_found)
  else 0

/-- Byte `j` of the encoded `_pathdata` structure of entry `k` of bucket
`b`, laid out under `w`. -/
def pdSlotByte (w : Layout) (A : AImage) (b k j : Nat) : Nat :=
  if j < w.ptrW then leByte (pathAddr b k) j
  else if w.flags ≤ j ∧ j < w.flags + 4 then
    leByte (entryAt A b k).flags (j - w.flags)
  else 0

/-- Byte `j` of the encoded `_bash_hash_table` structure laid out under `w`:
`bucket_array = 0x2000`, `nbuckets = 64`, `nentries = 2`. -/
def tableByte (w : Layout) (j : Nat) : Nat :=
  if j < w.ptrW then leByte 0x2000 j
  else if w.nbuckets ≤ j ∧ j < w.nbuckets + 4 then leByte 64 (j - w.nbuckets)
  else if w.nentries ≤ j ∧ j < w.nentries + 4 then leByte 2 (j - w.nentries)
  else 0

/-- Encoded head pointer of bucket `b`: its first entry, or 0 for an empty
chain. -/
def headVal (A : AImage) (b : Nat) : Nat :=
  if (chainAt A b).length = 0 then 0 else entryAddr b 0

/-- Byte `r` of the encoded 64-slot bucket array laid out under `w`. -/
def bucketSlotByte (w : Layout) (A : AImage) (r : Nat) : Nat :=
  leByte (headVal A (r / w.ptrW)) (r % w.ptrW)

/-- The synthetic buffer for the abstract image `A` laid out under the
Layout Catalog entry `w`: the table at `0x1000`, the bucket array at
`0x2000`, and one 64-byte slot per (bucket, position) pair in each of the
entry, key-string, `_pathdata` and path-string regions. -/
def encMem (w : Layout) (A : AImage) : AddrSpace := fun a =>
  if 0x1000 ≤ a ∧ a < 0x1000 + (w.nentries + 4) then
    some (tableByte w (a - 0x1000))
  else if 0x2000 ≤ a ∧ a < 0x2000 + 64 * w.ptrW then
    some (bucketSlotByte w A (a - 0x2000))
  else if 0x100000 ≤ a ∧ a < 0x140000 then
    (if (a - 0x100000) / 64 % 64 < (chainAt A ((a - 0x100000) / 64 / 64)).length then
       some (entrySlotByte w A ((a - 0x100000) / 64 / 64)
               ((a - 0x100000) / 64 % 64) ((a - 0x100000) % 64))
     else none)
  else if 0x200000 ≤ a ∧ a < 0x240000 then
    (if (a - 0x200000) % 64 = 0 ∧
        (a - 0x200000) / 64 % 64 < (chainAt A ((a - 0x200000) / 64 / 64)).length then
       some (entryAt A ((a - 0x200000) / 64 / 64) ((a - 0x200000) / 64 % 64)).keyB
     else none)
  else if 0x300000 ≤ a ∧ a < 0x340000 then
    (if (a - 0x300000) / 64 % 64 < (chainAt A ((a - 0x300000) / 64 / 64)).length then
       some (pdSlotByte w A ((a - 0x300000) / 64 / 64)
               ((a - 0x300000) / 64 % 64) ((a - 0x300000) % 64))
     else none)
  else if 0x400000 ≤ a ∧ a < 0x440000 then
    (if (a - 0x400000) % 64 = 0 ∧
        (a - 0x400000) / 64 % 64 < (chainAt A ((a - 0x400000) / 64 / 64)).length then
       some (entryAt A ((a - 0x400000) / 64 / 64) ((a - 0x400000) / 64 % 64)).pathB
     else none)
  else none

/-- The surfaced entry addresses the walk is expected to produce from
position `k` of bucket `b`, with `rem` entries remaining in the chain:
take entries while their usage count is positive, keeping those with
`flags ≤ 2`. -/
def absFrom (A : AImage) (b : Nat) : Nat → Nat → List Nat
  | _, 0 => []
  | k, rem + 1 =>
    if (entryAt A b k).times_found = 0 then []
    else
      (if (entryAt A b k).flags ≤ 2 then [entryAddr b k] else []) ++
      absFrom A b (k + 1) rem

/-- The logical projections the walk is expected to produce from position
`k` of bucket `b`, with `rem` entries remaining. -/
def absProjFrom (A : AImage) (b : Nat) :
    Nat → Nat → List (Option Int × Option Nat × Option Nat)
  | _, 0 => []
  | k, rem + 1 =>
    if (entryAt A b k).times_found = 0 then []
    else
      (if (entryAt A b k).flags ≤ 2 then
         [(some ((entryAt A b k).times_found : Int),
           some (entryAt A b k).keyB, some (entryAt A b k).pathB)]
       else []) ++
      absProjFrom A b (k + 1) rem

/-- The width-independent logical result sequence of scanning the encoded
image of `A`: all buckets in array order, each contributing its expected
chain projections. -/
def absLogical (A : AImage) : List (Option Int × Option Nat × Option Nat) :=
  flatMapL (fun b => absProjFrom A b 0 (chainAt A b).length) (List.range 64)

/-- A small concrete abstract image: one bucket with two entries
(`times_found` 3 and 1, flags 0 and 2), the other 63 buckets empty. -/
def c8img : AImage :=
  ⟨[[⟨3, 0, 65, 97⟩, ⟨1, 2, 66, 98⟩]] ++ List.replicate 63 []⟩


lemma readLE_succ_mapped {a : AddrSpace} {addr n v : Nat}
    (h : readLE a addr (n + 1) = some v) : isMapped a addr = true := by
  unfold readLE at h
  cases hb : a addr with
  | none =>
    rw [hb] at h
    cases hr : readLE a (addr + 1) n <;> rw [hr] at h <;> exact Option.noConfusion h
  | some b => simp [isMapped, hb]

lemma readLE_lt {a : AddrSpace} : ∀ {addr n v}, readLE a addr n = some v → v < 256 ^ n := by
  intro addr n
  induction n generalizing addr with
  | zero =>
    intro v h
    unfold readLE at h
    simp only [Option.some.injEq] at h
    omega
  | succ n ih =>
    intro v h
    unfold readLE at h
    cases hb : a addr <;> rw [hb] at h <;>
      cases hr : readLE a (addr + 1) n <;> rw [hr] at h <;>
        try exact Option.noConfusion h
    have hrest := ih hr
    have hv := (Option.some.inj h).symm
    rw [pow_succ]
    omega

lemma prefilter_iff (w : Layout) (a : AddrSpace) (off : Nat) :
    prefilter w a off = true ↔ readLE a (off + w.nbuckets) 4 = some 64 := by
  unfold prefilter
  cases h : readLE a (off + w.nbuckets) 4 with
  | none => simp
  | some v => simp [beq_iff_eq]

lemma mem_candidate_offsets {w : Layout} {a : AddrSpace} {s e o : Nat} :
    o ∈ candidate_offsets w a s e ↔
      (s ≤ o ∧ o < e ∧ readLE a (o + w.nbuckets) 4 = some 64) := by
  unfold candidate_offsets scanned_offsets
  rw [List.mem_filter, List.mem_range'_1, prefilter_iff]
  constructor
  · rintro ⟨⟨h1, h2⟩, h3⟩
    exact ⟨h1, by omega, h3⟩
  · rintro ⟨h1, h2, h3⟩
    exact ⟨⟨h1, by omega⟩, h3⟩

lemma flatMapL_append {α β : Type} (f : α → List β) (l1 l2 : List α) :
    flatMapL f (l1 ++ l2) = flatMapL f l1 ++ flatMapL f l2 := by
  induction l1 with
  | nil => rfl
  | cons x xs ih => simp [flatMapL, ih, List.append_assoc]

lemma flatMapL_congr {α β : Type} {f g : α → List β} {l : List α}
    (h : ∀ x ∈ l, f x = g x) : flatMapL f l = flatMapL g l := by
  induction l with
  | nil => rfl
  | cons x xs ih =>
    simp only [flatMapL]
    rw [h x (by simp), ih (fun y hy => h y (by simp [hy]))]

/-- C10: the scanned offset range is half-open — an offset `o` is tested by
the prefilter exactly when `heapStart ≤ o < heapEnd`, and `heapEnd` itself
is never tested. -/
theorem scan_offsets_half_open (s e o : Nat) :
    (o ∈ scanned_offsets s e ↔ s ≤ o ∧ o < e) ∧ e ∉ scanned_offsets s e := by
  unfold scanned_offsets
  constructor
  · rw [List.mem_range'_1]
    omega
  · rw [List.mem_range'_1]
    omega

/-- C1 counterexample: in the round-trip image the offset `0x1000` is
accepted as a candidate although the 4 bytes at
`0x1000 + nentries_offset` — the byte offset of the `entryCount` field —
read as 2, not 64.  The prefilter of the code reads at the `nbuckets`
(bucket-count) field offset, not at the `entryCount` field offset, so the
claimed equivalence fails at this input. -/
theorem c1_entry_count_offset_cex :
    0x1000 ∈ candidate_offsets bash_hash_vtypes_32 rtImage 0x1000 0x1010 ∧
    readLE rtImage (0x1000 + bash_hash_vtypes_32.nentries) 4 = some 2 := by
  decide

/-- C1 (amended): for every byte offset `o` of the scanned heap range
(step 1 byte), the scanner accepts `o` as a candidate iff the 4 bytes read
at `o + nbucketsFieldOffset` — the byte offset of the `nbuckets`
(bucketCount) field within `_bash_hash_table`, the offset the code fetches
from the Layout Catalog — interpreted as a little-endian unsigned 32-bit
integer, equal exactly 64. -/
theorem candidate_iff_nbuckets_read (w : Layout) (a : AddrSpace) (s e o : Nat) :
    o ∈ candidate_offsets w a s e ↔
      (s ≤ o ∧ o < e ∧ readLE a (o + w.nbuckets) 4 = some 64) :=
  mem_candidate_offsets

/-- C5 counterexample: in the round-trip image the 4 bytes at the
`entryCount` (`nentries`) field position of offset `0x1000` read as 2 — not
64 — yet that offset passes the prefilter and is accepted by the Structure
Validator.  The prefilter soundness stated over the `entryCount` field
position is therefore false; the sound position is the `nbuckets` field. -/
theorem c5_entry_count_soundness_cex :
    readLE rtImage (0x1000 + bash_hash_vtypes_32.nentries) 4 = some 2 ∧
    0x1000 ∈ candidate_offsets bash_hash_vtypes_32 rtImage 0x1000 0x1010 ∧
    hash_is_valid bash_hash_vtypes_32 rtImage 0x1000 = true := by
  decide

/-- C5 (amended): prefilter soundness holds at the `nbuckets` (bucketCount)
field position — if the 4 bytes there do not read as exactly 64, the offset
is never promoted to a candidate, and the Structure Validator rejects the
materialized view as well. -/
theorem nbuckets_prefilter_sound (w : Layout) (a : AddrSpace) (s e o : Nat)
    (h : readLE a (o + w.nbuckets) 4 ≠ some 64) :
    o ∉ candidate_offsets w a s e ∧ hash_is_valid w a o = false := by
  constructor
  · intro hmem
    exact h (mem_candidate_offsets.mp hmem).2.2
  · have hc : int_is a (o + w.nbuckets) 64 = false := by
      unfold int_is readIntF
      cases hr : readLE a (o + w.nbuckets) 4 with
      | none => simp
      | some v =>
        have hv : toInt32 v ≠ 64 := by
          have hne : v ≠ 64 := fun hv => h (by rw [hr, hv])
          have hlt : v < 256 ^ 4 := readLE_lt hr
          unfold toInt32
          split <;> omega
        simp [hv]
    unfold hash_is_valid
    rw [hc]
    simp

/-- Witness for the amended C5 at a concrete input: in the all-unmapped
address space the prefilter read fails, so offset 0 is neither a candidate
of the range `[0, 4)` nor a valid table view. -/
theorem nbuckets_prefilter_sound_witness :
    0 ∉ candidate_offsets bash_hash_vtypes_32 emptyAS 0 4 ∧
    hash_is_valid bash_hash_vtypes_32 emptyAS 0 = false :=
  nbuckets_prefilter_sound bash_hash_vtypes_32 emptyAS 0 4 0 (by decide)

lemma task_results_skip {w : Layout} {fuel : Nat} {sa : Bool} {t : Proc}
    (h : t.addrSpace = none ∨ t.heap = none) :
    task_results w fuel sa t = [] := by
  rcases h with h | h
  · simp [task_results, h]
  · cases hA : t.addrSpace with
    | none => simp [task_results, hA]
    | some a => simp [task_results, hA, h]

/-- C7: a `ReadFailure` on the prefilter read at offset `o` excludes only
`o` — it is not promoted to a candidate, while every other offset's
candidacy is decided by its own prefilter read alone — and a process whose
address space or heap region cannot be obtained contributes nothing without
affecting the rest of the run. -/
theorem read_failure_not_fatal (w : Layout) (a : AddrSpace) (s e o : Nat)
    (hfail : readLE a (o + w.nbuckets) 4 = none) :
    o ∉ candidate_offsets w a s e ∧
    (∀ u, u ∈ candidate_offsets w a s e ↔
        (u ∈ scanned_offsets s e ∧ prefilter w a u = true)) ∧
    (∀ fuel sa ts us (t : Proc), t.addrSpace = none ∨ t.heap = none →
        calculate w fuel sa (ts ++ t :: us) = calculate w fuel sa (ts ++ us)) := by
  refine ⟨?_, ?_, ?_⟩
  · intro hmem
    have hread := (mem_candidate_offsets.mp hmem).2.2
    rw [hfail] at hread
    exact Option.noConfusion hread
  · intro u
    exact List.mem_filter
  · intro fuel sa ts us t ht
    unfold calculate
    rw [flatMapL_append, flatMapL_append]
    simp only [flatMapL]
    rw [task_results_skip ht]
    simp

/-- Witness for C7 at concrete inputs: the all-unmapped space fails the
prefilter read at offset 0, and a process with no address space is skipped
without disturbing the run. -/
theorem read_failure_not_fatal_witness :
    (0 ∉ candidate_offsets bash_hash_vtypes_32 emptyAS 0 4) ∧
    (1 ∈ candidate_offsets bash_hash_vtypes_32 emptyAS 0 4 ↔
       (1 ∈ scanned_offsets 0 4 ∧ prefilter bash_hash_vtypes_32 emptyAS 1 = true)) ∧
    calculate bash_hash_vtypes_32 5 false ([] ++ ⟨9, "bash", none, none⟩ :: []) =
      calculate bash_hash_vtypes_32 5 false ([] ++ []) := by
  have h := read_failure_not_fatal bash_hash_vtypes_32 emptyAS 0 4 0 (by decide)
  exact ⟨h.1, h.2.1 1, h.2.2 5 false [] [] ⟨9, "bash", none, none⟩ (Or.inl rfl)⟩

/-- C2: the Structure Validator accepts the materialized view exactly when
its `bucket_array` pointer resolves to mapped memory, `nbuckets == 64` and
`nentries > 1`; a rejected candidate contributes no results. -/
theorem validator_iff (w : Layout) (a : AddrSpace) (off fuel : Nat)
    (hw : w = bash_hash_vtypes_32 ∨ w = bash_hash_vtypes_64) :
    hash_is_valid w a off =
      (ptr_resolves w a (off + w.bucket_array) &&
       int_is a (off + w.nbuckets) 64 && int_gt a (off + w.nentries) 1) ∧
    (hash_is_valid w a off = false → table_results w a fuel off = []) := by
  constructor
  · have hba : w.bucket_array = 0 := by rcases hw with rfl | rfl <;> rfl
    unfold hash_is_valid ptr_resolves
    rw [hba, Nat.add_zero]
    cases hp : readLE a off w.ptrW with
    | none => simp
    | some p =>
      have hm : isMapped a off = true := by
        rcases hw with rfl | rfl
        · exact readLE_succ_mapped (n := 3) hp
        · exact readLE_succ_mapped (n := 7) hp
      rw [hm]
      simp
  · intro h
    unfold table_results
    rw [h]
    simp

/-- Witness for C2 at concrete inputs: the round-trip image's table at
`0x1000` satisfies the equivalence, and offset 0 (invalid there) yields no
results. -/
theorem validator_iff_witness :
    (hash_is_valid bash_hash_vtypes_32 rtImage 0x1000 =
      (ptr_resolves bash_hash_vtypes_32 rtImage
         (0x1000 + bash_hash_vtypes_32.bucket_array) &&
       int_is rtImage (0x1000 + bash_hash_vtypes_32.nbuckets) 64 &&
       int_gt rtImage (0x1000 + bash_hash_vtypes_32.nentries) 1)) ∧
    table_results bash_hash_vtypes_32 rtImage 5 0 = [] :=
  ⟨(validator_iff bash_hash_vtypes_32 rtImage 0x1000 5 (Or.inl rfl)).1,
   (validator_iff bash_hash_vtypes_32 rtImage 0 5 (Or.inl rfl)).2 (by decide)⟩

lemma walk_eq_filter (w : Layout) (a : AddrSpace) :
    ∀ fuel ent, walk_bucket w a fuel ent =
      (visited_nodes w a fuel ent).filter (entry_surfaced w a)
  | 0, _ => rfl
  | fuel + 1, ent => by
    unfold walk_bucket visited_nodes
    cases hc : bucket_continue w a ent
    · simp
    · simp only [if_true]
      cases hn : readLE a (ent + w.next) w.ptrW with
      | none =>
        rw [List.filter_cons]
        cases hs : entry_surfaced w a ent <;> simp [hs]
      | some nxt =>
        rw [List.filter_cons]
        cases hs : entry_surfaced w a ent <;>
          simp [hs, walk_eq_filter w a fuel nxt]

lemma walk_stop_now {w : Layout} {a : AddrSpace} {ent : Nat}
    (h : bucket_continue w a ent = false) :
    ∀ fuel, walk_bucket w a fuel ent = []
  | 0 => rfl
  | fuel + 1 => by
    unfold walk_bucket
    rw [h]
    simp

lemma visited_continue (w : Layout) (a : AddrSpace) :
    ∀ fuel ent x, x ∈ visited_nodes w a fuel ent → bucket_continue w a x = true
  | 0, ent, x, hx => absurd hx (by simp [visited_nodes])
  | fuel + 1, ent, x, hx => by
    unfold visited_nodes at hx
    cases hc : bucket_continue w a ent <;> rw [hc] at hx
    · simp at hx
    · simp only [if_true] at hx
      cases hn : readLE a (ent + w.next) w.ptrW <;> rw [hn] at hx
      · rcases List.mem_cons.mp hx with rfl | hx'
        · exact hc
        · simp at hx'
      · rcases List.mem_cons.mp hx with rfl | hx'
        · exact hc
        · exact visited_continue w a fuel _ x hx'

/-- C3: chain traversal surfaces exactly the visited nodes that pass the
path/flags test (a node failing only that test is skipped while traversal
continues); it runs its body only at nodes satisfying the continuation
predicate, and stops immediately at a node failing it (a failed dereference
makes every conjunct of the predicate fail). -/
theorem chain_traversal_behavior (w : Layout) (a : AddrSpace) (fuel ent : Nat) :
    walk_bucket w a fuel ent =
      (visited_nodes w a fuel ent).filter (entry_surfaced w a) ∧
    (bucket_continue w a ent = false → walk_bucket w a fuel ent = []) ∧
    (∀ x ∈ visited_nodes w a fuel ent, bucket_continue w a x = true) :=
  ⟨walk_eq_filter w a fuel ent,
   fun h => walk_stop_now h fuel,
   fun x hx => visited_continue w a fuel ent x hx⟩

/-- Witness for C3 at concrete inputs: the round-trip image's bucket chain
at `0x3000` realizes the filter equation, a node failing the continuation
predicate produces nothing, and every visited node satisfies the
predicate. -/
theorem chain_traversal_behavior_witness :
    (walk_bucket bash_hash_vtypes_32 rtImage 5 0x3000 =
      (visited_nodes bash_hash_vtypes_32 rtImage 5 0x3000).filter
        (entry_surfaced bash_hash_vtypes_32 rtImage)) ∧
    walk_bucket bash_hash_vtypes_32 rtImage 5 0 = [] ∧
    bucket_continue bash_hash_vtypes_32 rtImage 0x3000 = true :=
  ⟨(chain_traversal_behavior bash_hash_vtypes_32 rtImage 5 0x3000).1,
   (chain_traversal_behavior bash_hash_vtypes_32 rtImage 5 0).2.1 (by decide),
   (chain_traversal_behavior bash_hash_vtypes_32 rtImage 5 0x3000).2.2 0x3000
     (by decide)⟩

lemma chain_iter_shift {w : Layout} {a : AddrSpace} {ent nxt : Nat}
    (hc : bucket_continue w a ent = true)
    (hn : readLE a (ent + w.next) w.ptrW = some nxt) :
    ∀ k, chain_iter w a ent (k + 1) = chain_iter w a nxt k
  | 0 => by simp [chain_iter, hc, hn]
  | k + 1 => by
    show (match chain_iter w a ent (k + 1) with
          | some e =>
            if bucket_continue w a e then readLE a (e + w.next) w.ptrW else none
          | none => none) =
         (match chain_iter w a nxt k with
          | some e =>
            if bucket_continue w a e then readLE a (e + w.next) w.ptrW else none
          | none => none)
    rw [chain_iter_shift hc hn k]

lemma stops_to_iter_none {w : Layout} {a : AddrSpace} :
    ∀ fuel ent, walk_stops w a fuel ent = true →
      ∃ k, chain_iter w a ent k = none
  | 0, ent, h => absurd h (by simp [walk_stops])
  | fuel + 1, ent, h => by
    unfold walk_stops at h
    cases hc : bucket_continue w a ent <;> rw [hc] at h
    · exact ⟨1, by simp [chain_iter, hc]⟩
    · simp only [if_true] at h
      cases hn : readLE a (ent + w.next) w.ptrW <;> rw [hn] at h
      · exact ⟨1, by simp [chain_iter, hc, hn]⟩
      · obtain ⟨k, hk⟩ := stops_to_iter_none fuel _ h
        exact ⟨k + 1, by rw [chain_iter_shift hc hn k]; exact hk⟩

lemma iter_none_to_stops {w : Layout} {a : AddrSpace} :
    ∀ k ent, chain_iter w a ent k = none →
      ∃ fuel, walk_stops w a fuel ent = true
  | 0, ent, h => absurd h (by simp [chain_iter])
  | k + 1, ent, h => by
    cases hc : bucket_continue w a ent with
    | false => exact ⟨1, by simp [walk_stops, hc]⟩
    | true =>
      cases hn : readLE a (ent + w.next) w.ptrW with
      | none => exact ⟨1, by simp [walk_stops, hc, hn]⟩
      | some nxt =>
        rw [chain_iter_shift hc hn k] at h
        obtain ⟨fuel, hf⟩ := iter_none_to_stops k nxt h
        exact ⟨fuel + 1, by simp [walk_stops, hc, hn, hf]⟩

/-- C6 (amended): traversal of one chain terminates if and only if the
iterated `next` chain eventually fails — reaches a node that fails the
continuation predicate or whose `next` pointer cannot be read.  The code
performs no cycle detection, so a cyclic chain of persistently live nodes
is never exited. -/
theorem chain_walk_terminates_iff (w : Layout) (a : AddrSpace) (ent : Nat) :
    (∃ fuel, walk_stops w a fuel ent = true) ↔
      (∃ k, chain_iter w a ent k = none) :=
  ⟨fun ⟨fuel, h⟩ => stops_to_iter_none fuel ent h,
   fun ⟨k, h⟩ => iter_none_to_stops k ent h⟩

/-- C6 counterexample: in the cyclic image the chain headed at `0x3000`
points to itself with `times_found = 1` and resolvable `data`/`key`
pointers, and the walk loop never exits — traversal of this chain does not
terminate, refuting the claim that traversal of one chain always
terminates. -/
theorem chain_walk_nontermination_cex :
    ¬ ∃ fuel, walk_stops bash_hash_vtypes_32 cycImage fuel 0x3000 = true := by
  have hall : ∀ fuel, walk_stops bash_hash_vtypes_32 cycImage fuel 0x3000 = false := by
    intro fuel
    induction fuel with
    | zero => rfl
    | succ n ih =>
      have hc : bucket_continue bash_hash_vtypes_32 cycImage 0x3000 = true := by
        decide
      have hn : readLE cycImage (0x3000 + bash_hash_vtypes_32.next)
          bash_hash_vtypes_32.ptrW = some 0x3000 := by decide
      unfold walk_stops
      rw [hc]
      simp only [if_true]
      rw [hn]
      exact ih
  rintro ⟨fuel, hf⟩
  rw [hall fuel] at hf
  exact Bool.noConfusion hf

lemma walk_stable (w : Layout) (a : AddrSpace) :
    ∀ fuel ent, walk_stops w a fuel ent = true →
      ∀ m, walk_bucket w a (fuel + m) ent = walk_bucket w a fuel ent
  | 0, ent, h, m => absurd h (by simp [walk_stops])
  | fuel + 1, ent, h, m => by
    have hadd : fuel + 1 + m = (fuel + m) + 1 := by omega
    rw [hadd]
    unfold walk_stops at h
    unfold walk_bucket
    split at h
    case isTrue hc =>
      rw [if_pos hc, if_pos hc]
      split at h
      case h_1 nxt hn =>
        rw [walk_stable w a fuel nxt h m]
      case h_2 hn =>
        rfl
    case isFalse hc =>
      rw [if_neg hc, if_neg hc]

lemma table_stable (w : Layout) (a : AddrSpace) (fuel off : Nat)
    (h : table_stops w a fuel off = true) :
    ∀ m, table_results w a (fuel + m) off = table_results w a fuel off := by
  intro m
  unfold table_results
  unfold table_stops at h
  split at h
  case isTrue hv =>
    rw [if_pos hv, if_pos hv]
    split at h
    case h_1 ba hb =>
      apply flatMapL_congr
      intro i hi
      have hstop := (List.all_eq_true.mp h) i hi
      simp only [] at hstop
      split
      case h_1 hd hn =>
        have hstop2 : walk_stops w a fuel hd = true := by
          simpa [hn] using hstop
        exact walk_stable w a fuel hd hstop2 m
      case h_2 hn => rfl
    case h_2 hb => rfl
  case isFalse hv =>
    rw [if_neg hv, if_neg hv]

lemma scan_stable (w : Layout) (a : AddrSpace) (fuel s e : Nat)
    (h : scan_stops w a fuel s e = true) :
    ∀ m, scan_heap w a (fuel + m) s e = scan_heap w a fuel s e := by
  intro m
  unfold scan_heap
  apply flatMapL_congr
  intro o ho
  exact table_stable w a fuel o ((List.all_eq_true.mp h) o ho) m

/-- C4: scanning the hand-constructed round-trip image — one valid table
(`nbuckets = 64`, `nentries = 2`), one populated bucket with two chained
nodes of `times_found` 3 and 1, both with resolvable `data`/`key` pointers
and flags 0 and 2 — yields exactly the two nodes `0x3000` and `0x3100`,
with usage counts 3 and 1, and no duplicates, for every sufficient fuel. -/
theorem round_trip_scan (n : Nat) :
    scan_heap bash_hash_vtypes_32 rtImage (3 + n) 0x1000 0x1010 =
      [0x3000, 0x3100] ∧
    (scan_heap bash_hash_vtypes_32 rtImage (3 + n) 0x1000 0x1010).map
      (fun ent => readIntF rtImage (ent + bash_hash_vtypes_32.times_found)) =
      [some 3, some 1] ∧
    (scan_heap bash_hash_vtypes_32 rtImage (3 + n) 0x1000 0x1010).Nodup := by
  have hs : scan_heap bash_hash_vtypes_32 rtImage (3 + n) 0x1000 0x1010 =
      scan_heap bash_hash_vtypes_32 rtImage 3 0x1000 0x1010 :=
    scan_stable bash_hash_vtypes_32 rtImage 3 0x1000 0x1010 (by decide) n
  rw [hs]
  exact ⟨by decide, by decide, by decide⟩

/-- C9: for a process whose address space and heap region are obtainable,
when `SCAN_ALL` is false its heap is scanned exactly when its name is
`bash`, and when `SCAN_ALL` is true its heap is scanned unconditionally. -/
theorem scan_all_selection (w : Layout) (fuel : Nat) (t : Proc)
    (a : AddrSpace) (s e : Nat)
    (hA : t.addrSpace = some a) (hH : t.heap = some (s, e)) :
    (task_results w fuel false t =
       (if t.comm == "bash" then
          (scan_heap w a fuel s e).map (fun ent => (t.pid, ent))
        else [])) ∧
    task_results w fuel true t =
      (scan_heap w a fuel s e).map (fun ent => (t.pid, ent)) := by
  constructor <;> simp [task_results, hA, hH]

/-- Witness for C9 at concrete inputs: a process named `bash` with the
round-trip image as heap is scanned with `SCAN_ALL` both unset and set. -/
theorem scan_all_selection_witness :
    (task_results bash_hash_vtypes_32 3 false
        ⟨7, "bash", some rtImage, some (0x1000, 0x1010)⟩ =
      (if ("bash" : String) == "bash" then
         (scan_heap bash_hash_vtypes_32 rtImage 3 0x1000 0x1010).map
           (fun ent => (7, ent))
       else [])) ∧
    task_results bash_hash_vtypes_32 3 true
        ⟨7, "bash", some rtImage, some (0x1000, 0x1010)⟩ =
      (scan_heap bash_hash_vtypes_32 rtImage 3 0x1000 0x1010).map
        (fun ent => (7, ent)) :=
  scan_all_selection bash_hash_vtypes_32 3
    ⟨7, "bash", some rtImage, some (0x1000, 0x1010)⟩ rtImage 0x1000 0x1010
    rfl rfl

lemma readLE_of_leBytes (a : AddrSpace) :
    ∀ n base v, (∀ j, j < n → a (base + j) = some (leByte v j)) → v < 256 ^ n →
      readLE a base n = some v := by
  intro n
  induction n with
  | zero =>
    intro base v hb hv
    have hz : v = 0 := by
      have := hv
      simp only [pow_zero] at this
      omega
    rw [hz]
    rfl
  | succ n ih =>
    intro base v hb hv
    have h0 : a base = some (v % 256) := by
      have h := hb 0 (by omega)
      rwa [Nat.add_zero, leByte, pow_zero, Nat.div_one] at h
    have hrest : readLE a (base + 1) n = some (v / 256) := by
      apply ih
      · intro j hj
        have h := hb (j + 1) (by omega)
        rw [show base + (j + 1) = base + 1 + j from by omega] at h
        rw [h]
        congr 1
        unfold leByte
        congr 1
        rw [Nat.div_div_eq_div_mul]
        congr 1
        rw [pow_succ']
      · rw [Nat.div_lt_iff_lt_mul (by omega : 0 < 256)]
        calc v < 256 ^ (n + 1) := hv
        _ = 256 ^ n * 256 := by rw [pow_succ]
    unfold readLE
    rw [h0, hrest]
    simp only [Option.some.injEq]
    omega

lemma encMem_low (w : Layout) (A : AImage) (adr : Nat) (ha : adr < 0x1000) :
    encMem w A adr = none := by
  simp only [encMem]
  rw [if_neg (by omega), if_neg (by omega), if_neg (by omega), if_neg (by omega),
    if_neg (by omega), if_neg (by omega)]


lemma encMem_table (w : Layout) (A : AImage) (j : Nat) (hj : j < w.nentries + 4) :
    encMem w A (0x1000 + j) = some (tableByte w j) := by
  have harg : (0x1000 : Nat) + j - 0x1000 = j := by omega
  simp only [encMem]
  rw [if_pos (by omega : 0x1000 ≤ 0x1000 + j ∧ 0x1000 + j < 0x1000 + (w.nentries + 4))]
  rw [harg]

lemma encMem_bucket (w : Layout) (A : AImage) (r : Nat)
    (hw : w = bash_hash_vtypes_32 ∨ w = bash_hash_vtypes_64)
    (hr : r < 64 * w.ptrW) :
    encMem w A (0x2000 + r) = some (bucketSlotByte w A r) := by
  have harg : (0x2000 : Nat) + r - 0x2000 = r := by omega
  rcases hw with rfl | rfl <;>
  · simp only [encMem]
    rw [if_neg (by simp only [bash_hash_vtypes_32, bash_hash_vtypes_64]; omega)]
    rw [if_pos (by simp only [bash_hash_vtypes_32, bash_hash_vtypes_64] at hr ⊢; omega)]
    rw [harg]

lemma encMem_entry (w : Layout) (A : AImage) (b k j : Nat)
    (hw : w = bash_hash_vtypes_32 ∨ w = bash_hash_vtypes_64)
    (hb : b < 64) (hk : k < 64) (hj : j < 64) :
    encMem w A (entryAddr b k + j) =
      (if k < (chainAt A b).length then some (entrySlotByte w A b k j)
       else none) := by
  have hd1 : (entryAddr b k + j - 0x100000) / 64 / 64 = b := by
    unfold entryAddr
    omega
  have hd2 : (entryAddr b k + j - 0x100000) / 64 % 64 = k := by
    unfold entryAddr
    omega
  have hd3 : (entryAddr b k + j - 0x100000) % 64 = j := by
    unfold entryAddr
    omega
  rcases hw with rfl | rfl <;>
  · simp only [encMem]
    rw [if_neg (by unfold entryAddr; simp only [bash_hash_vtypes_32, bash_hash_vtypes_64]; omega)]
    rw [if_neg (by unfold entryAddr; simp only [bash_hash_vtypes_32, bash_hash_vtypes_64]; omega)]
    rw [if_pos (by unfold entryAddr; omega :
      0x100000 ≤ entryAddr b k + j ∧ entryAddr b k + j < 0x140000)]
    rw [hd1, hd2, hd3]

lemma encMem_key (w : Layout) (A : AImage) (b k : Nat)
    (hw : w = bash_hash_vtypes_32 ∨ w = bash_hash_vtypes_64)
    (hb : b < 64) (hk : k < 64) :
    encMem w A (keyAddr b k) =
      (if k < (chainAt A b).length then some (entryAt A b k).keyB
       else none) := by
  have hd1 : (keyAddr b k - 0x200000) / 64 / 64 = b := by
    unfold keyAddr
    omega
  have hd2 : (keyAddr b k - 0x200000) / 64 % 64 = k := by
    unfold keyAddr
    omega
  have hd3 : (keyAddr b k - 0x200000) % 64 = 0 := by
    unfold keyAddr
    omega
  rcases hw with rfl | rfl <;>
  · simp only [encMem]
    rw [if_neg (by unfold keyAddr; simp only [bash_hash_vtypes_32, bash_hash_vtypes_64]; omega)]
    rw [if_neg (by unfold keyAddr; simp only [bash_hash_vtypes_32, bash_hash_vtypes_64]; omega)]
    rw [if_neg (by unfold keyAddr; omega)]
    rw [if_pos (by unfold keyAddr; omega :
      0x200000 ≤ keyAddr b k ∧ keyAddr b k < 0x240000)]
    rw [hd1, hd2, hd3]
    simp

lemma encMem_pd (w : Layout) (A : AImage) (b k j : Nat)
    (hw : w = bash_hash_vtypes_32 ∨ w = bash_hash_vtypes_64)
    (hb : b < 64) (hk : k < 64) (hj : j < 64) :
    encMem w A (dataAddr b k + j) =
      (if k < (chainAt A b).length then some (pdSlotByte w A b k j)
       else none) := by
  have hd1 : (dataAddr b k + j - 0x300000) / 64 / 64 = b := by
    unfold dataAddr
    omega
  have hd2 : (dataAddr b k + j - 0x300000) / 64 % 64 = k := by
    unfold dataAddr
    omega
  have hd3 : (dataAddr b k + j - 0x300000) % 64 = j := by
    unfold dataAddr
    omega
  rcases hw with rfl | rfl <;>
  · simp only [encMem]
    rw [if_neg (by unfold dataAddr; simp only [bash_hash_vtypes_32, bash_hash_vtypes_64]; omega)]
    rw [if_neg (by unfold dataAddr; simp only [bash_hash_vtypes_32, bash_hash_vtypes_64]; omega)]
    rw [if_neg (by unfold dataAddr; omega)]
    rw [if_neg (by unfold dataAddr; omega)]
    rw [if_pos (by unfold dataAddr; omega :
      0x300000 ≤ dataAddr b k + j ∧ dataAddr b k + j < 0x340000)]
    rw [hd1, hd2, hd3]

lemma encMem_path (w : Layout) (A : AImage) (b k : Nat)
    (hw : w = bash_hash_vtypes_32 ∨ w = bash_hash_vtypes_64)
    (hb : b < 64) (hk : k < 64) :
    encMem w A (pathAddr b k) =
      (if k < (chainAt A b).length then some (entryAt A b k).pathB
       else none) := by
  have hd1 : (pathAddr b k - 0x400000) / 64 / 64 = b := by
    unfold pathAddr
    omega
  have hd2 : (pathAddr b k - 0x400000) / 64 % 64 = k := by
    unfold pathAddr
    omega
  have hd3 : (pathAddr b k - 0x400000) % 64 = 0 := by
    unfold pathAddr
    omega
  rcases hw with rfl | rfl <;>
  · simp only [encMem]
    rw [if_neg (by unfold pathAddr; simp only [bash_hash_vtypes_32, bash_hash_vtypes_64]; omega)]
    rw [if_neg (by unfold pathAddr; simp only [bash_hash_vtypes_32, bash_hash_vtypes_64]; omega)]
    rw [if_neg (by unfold pathAddr; omega)]
    rw [if_neg (by unfold pathAddr; omega)]
    rw [if_neg (by unfold pathAddr; omega)]
    rw [if_pos (by unfold pathAddr; omega :
      0x400000 ≤ pathAddr b k ∧ pathAddr b k < 0x440000)]
    rw [hd1, hd2, hd3]
    simp

lemma enc_read_next (w : Layout) (A : AImage) (b k : Nat)
    (hw : w = bash_hash_vtypes_32 ∨ w = bash_hash_vtypes_64)
    (hb : b < 64) (hk : k < 64) (hlive : k < (chainAt A b).length) :
    readLE (encMem w A) (entryAddr b k + w.next) w.ptrW = some (nextVal A b k) := by
  rcases hw with rfl | rfl <;>
  · simp only [bash_hash_vtypes_32, bash_hash_vtypes_64]
    apply readLE_of_leBytes
    · intro j hj
      rw [show entryAddr b k + 0 + j = entryAddr b k + j from by omega]
      rw [encMem_entry _ A b k j
        (by first | exact Or.inl rfl | exact Or.inr rfl) hb hk (by omega)]
      rw [if_pos hlive]
      unfold entrySlotByte
      simp only [bash_hash_vtypes_32, bash_hash_vtypes_64]
      rw [if_pos (by omega)]
    · unfold nextVal entryAddr
      split <;> norm_num <;> omega

lemma enc_read_key (w : Layout) (A : AImage) (b k : Nat)
    (hw : w = bash_hash_vtypes_32 ∨ w = bash_hash_vtypes_64)
    (hb : b < 64) (hk : k < 64) (hlive : k < (chainAt A b).length) :
    readLE (encMem w A) (entryAddr b k + w.key) w.ptrW = some (keyAddr b k) := by
  rcases hw with rfl | rfl <;>
  · simp only [bash_hash_vtypes_32, bash_hash_vtypes_64]
    apply readLE_of_leBytes
    · intro j hj
      rw [Nat.add_assoc]
      rw [encMem_entry _ A b k _
        (by first | exact Or.inl rfl | exact Or.inr rfl) hb hk (by omega)]
      rw [if_pos hlive]
      unfold entrySlotByte
      simp only [bash_hash_vtypes_32, bash_hash_vtypes_64]
      rw [if_neg (by omega), if_pos (by omega)]
      rw [Nat.add_sub_cancel_left]
    · have h1 : keyAddr b k < 4294967296 := by
        unfold keyAddr
        omega
      exact lt_of_lt_of_le h1 (by norm_num)

lemma enc_read_data (w : Layout) (A : AImage) (b k : Nat)
    (hw : w = bash_hash_vtypes_32 ∨ w = bash_hash_vtypes_64)
    (hb : b < 64) (hk : k < 64) (hlive : k < (chainAt A b).length) :
    readLE (encMem w A) (entryAddr b k + w.data) w.ptrW = some (dataAddr b k) := by
  rcases hw with rfl | rfl <;>
  · simp only [bash_hash_vtypes_32, bash_hash_vtypes_64]
    apply readLE_of_leBytes
    · intro j hj
      rw [Nat.add_assoc]
      rw [encMem_entry _ A b k _
        (by first | exact Or.inl rfl | exact Or.inr rfl) hb hk (by omega)]
      rw [if_pos hlive]
      unfold entrySlotByte
      simp only [bash_hash_vtypes_32, bash_hash_vtypes_64]
      rw [if_neg (by omega), if_neg (by omega), if_pos (by omega)]
      rw [Nat.add_sub_cancel_left]
    · have h1 : dataAddr b k < 4294967296 := by
        unfold dataAddr
        omega
      exact lt_of_lt_of_le h1 (by norm_num)

lemma enc_read_tf (w : Layout) (A : AImage) (b k : Nat)
    (hw : w = bash_hash_vtypes_32 ∨ w = bash_hash_vtypes_64)
    (hb : b < 64) (hk : k < 64) (hlive : k < (chainAt A b).length)
    (htf : (entryAt A b k).times_found < 2147483648) :
    readIntF (encMem w A) (entryAddr b k + w.times_found) =
      some ((entryAt A b k).times_found : Int) := by
  rcases hw with rfl | rfl <;>
  · simp only [bash_hash_vtypes_32, bash_hash_vtypes_64]
    unfold readIntF
    rw [readLE_of_leBytes (encMem _ A) 4 _ ((entryAt A b k).times_found)
      (fun j hj => by
        rw [Nat.add_assoc]
        rw [encMem_entry _ A b k _
          (by first | exact Or.inl rfl | exact Or.inr rfl) hb hk (by omega)]
        rw [if_pos hlive]
        unfold entrySlotByte
        simp only [bash_hash_vtypes_32, bash_hash_vtypes_64]
        rw [if_neg (by omega), if_neg (by omega), if_neg (by omega),
          if_pos (by omega)]
        rw [Nat.add_sub_cancel_left])
      (lt_of_lt_of_le htf (by norm_num))]
    simp only [Option.map_some']
    unfold toInt32
    rw [if_pos htf]

lemma enc_read_path (w : Layout) (A : AImage) (b k : Nat)
    (hw : w = bash_hash_vtypes_32 ∨ w = bash_hash_vtypes_64)
    (hb : b < 64) (hk : k < 64) (hlive : k < (chainAt A b).length) :
    readLE (encMem w A) (dataAddr b k + w.path) w.ptrW = some (pathAddr b k) := by
  rcases hw with rfl | rfl <;>
  · simp only [bash_hash_vtypes_32, bash_hash_vtypes_64]
    apply readLE_of_leBytes
    · intro j hj
      rw [Nat.add_assoc]
      rw [encMem_pd _ A b k _
        (by first | exact Or.inl rfl | exact Or.inr rfl) hb hk (by omega)]
      rw [if_pos hlive]
      unfold pdSlotByte
      simp only [bash_hash_vtypes_32, bash_hash_vtypes_64]
      rw [if_pos (by omega)]
      rw [Nat.zero_add]
    · have h1 : pathAddr b k < 4294967296 := by
        unfold pathAddr
        omega
      exact lt_of_lt_of_le h1 (by norm_num)

lemma enc_read_flags (w : Layout) (A : AImage) (b k : Nat)
    (hw : w = bash_hash_vtypes_32 ∨ w = bash_hash_vtypes_64)
    (hb : b < 64) (hk : k < 64) (hlive : k < (chainAt A b).length)
    (hfl : (entryAt A b k).flags < 2147483648) :
    readIntF (encMem w A) (dataAddr b k + w.flags) =
      some ((entryAt A b k).flags : Int) := by
  rcases hw with rfl | rfl <;>
  · simp only [bash_hash_vtypes_32, bash_hash_vtypes_64]
    unfold readIntF
    rw [readLE_of_leBytes (encMem _ A) 4 _ ((entryAt A b k).flags)
      (fun j hj => by
        rw [Nat.add_assoc]
        rw [encMem_pd _ A b k _
          (by first | exact Or.inl rfl | exact Or.inr rfl) hb hk (by omega)]
        rw [if_pos hlive]
        unfold pdSlotByte
        simp only [bash_hash_vtypes_32, bash_hash_vtypes_64]
        rw [if_neg (by omega), if_pos (by omega)]
        rw [Nat.add_sub_cancel_left])
      (lt_of_lt_of_le hfl (by norm_num))]
    simp only [Option.map_some']
    unfold toInt32
    rw [if_pos hfl]

lemma enc_key_mapped (w : Layout) (A : AImage) (b k : Nat)
    (hw : w = bash_hash_vtypes_32 ∨ w = bash_hash_vtypes_64)
    (hb : b < 64) (hk : k < 64) (hlive : k < (chainAt A b).length) :
    isMapped (encMem w A) (keyAddr b k) = true := by
  unfold isMapped
  rw [encMem_key w A b k hw hb hk, if_pos hlive]
  rfl

lemma enc_data_mapped (w : Layout) (A : AImage) (b k : Nat)
    (hw : w = bash_hash_vtypes_32 ∨ w = bash_hash_vtypes_64)
    (hb : b < 64) (hk : k < 64) (hlive : k < (chainAt A b).length) :
    isMapped (encMem w A) (dataAddr b k) = true := by
  have h := encMem_pd w A b k 0 hw hb hk (by omega)
  rw [Nat.add_zero] at h
  unfold isMapped
  rw [h, if_pos hlive]
  rfl

lemma enc_path_mapped (w : Layout) (A : AImage) (b k : Nat)
    (hw : w = bash_hash_vtypes_32 ∨ w = bash_hash_vtypes_64)
    (hb : b < 64) (hk : k < 64) (hlive : k < (chainAt A b).length) :
    isMapped (encMem w A) (pathAddr b k) = true := by
  unfold isMapped
  rw [encMem_path w A b k hw hb hk, if_pos hlive]
  rfl

lemma enc_bucket_continue (w : Layout) (A : AImage) (b k : Nat)
    (hw : w = bash_hash_vtypes_32 ∨ w = bash_hash_vtypes_64)
    (hb : b < 64) (hk : k < 64) (hlive : k < (chainAt A b).length)
    (htf : (entryAt A b k).times_found < 2147483648) :
    bucket_continue w (encMem w A) (entryAddr b k) =
      decide (0 < (entryAt A b k).times_found) := by
  unfold bucket_continue int_gt ptr_resolves
  rw [enc_read_tf w A b k hw hb hk hlive htf]
  rw [enc_read_data w A b k hw hb hk hlive]
  rw [enc_read_key w A b k hw hb hk hlive]
  simp only [enc_data_mapped w A b k hw hb hk hlive,
    enc_key_mapped w A b k hw hb hk hlive, Bool.and_true]
  exact decide_eq_decide.mpr (by omega)

lemma enc_entry_surfaced (w : Layout) (A : AImage) (b k : Nat)
    (hw : w = bash_hash_vtypes_32 ∨ w = bash_hash_vtypes_64)
    (hb : b < 64) (hk : k < 64) (hlive : k < (chainAt A b).length)
    (hfl : (entryAt A b k).flags < 2147483648) :
    entry_surfaced w (encMem w A) (entryAddr b k) =
      decide ((entryAt A b k).flags ≤ 2) := by
  unfold entry_surfaced flags_in_range ptr_resolves
  simp only [enc_read_data w A b k hw hb hk hlive]
  rw [enc_read_path w A b k hw hb hk hlive]
  rw [enc_read_flags w A b k hw hb hk hlive hfl]
  simp only [enc_path_mapped w A b k hw hb hk hlive, Bool.true_and]
  exact decide_eq_decide.mpr (by omega)

lemma wfA_len {A : AImage} (hA : wfA A = true) : A.chains.length = 64 := by
  unfold wfA at hA
  simp only [Bool.and_eq_true, beq_iff_eq] at hA
  exact hA.1

lemma chainAt_getD {A : AImage} {b : Nat} (hb : b < A.chains.length) :
    chainAt A b = A.chains[b] := by
  unfold chainAt
  rw [List.getD_eq_getElem?_getD, List.getElem?_eq_getElem hb]
  rfl

lemma wfA_chain_le {A : AImage} (hA : wfA A = true) (b : Nat) :
    (chainAt A b).length ≤ 64 := by
  by_cases hb : b < A.chains.length
  · rw [chainAt_getD hb]
    unfold wfA at hA
    simp only [Bool.and_eq_true, List.all_eq_true, decide_eq_true_eq] at hA
    exact (hA.2 _ (A.chains.getElem_mem hb)).1
  · unfold chainAt
    rw [List.getD_eq_default _ _ (by omega)]
    simp

lemma wfA_entry_bounds {A : AImage} (hA : wfA A = true) {b k : Nat}
    (hk : k < (chainAt A b).length) :
    (entryAt A b k).times_found < 2147483648 ∧
      (entryAt A b k).flags < 2147483648 := by
  have hb : b < A.chains.length := by
    by_contra hb
    unfold chainAt at hk
    rw [List.getD_eq_default _ _ (by omega)] at hk
    simp at hk
  have hchain : chainAt A b ∈ A.chains := by
    rw [chainAt_getD hb]
    exact A.chains.getElem_mem hb
  have hent : entryAt A b k ∈ chainAt A b := by
    unfold entryAt
    rw [List.getD_eq_getElem?_getD, List.getElem?_eq_getElem hk]
    exact (chainAt A b).getElem_mem hk
  unfold wfA at hA
  simp only [Bool.and_eq_true, List.all_eq_true, decide_eq_true_eq] at hA
  have h := ((hA.2 _ hchain).2 _ hent)
  have h31 : (2147483648 : Nat) = 2 ^ 31 := by norm_num
  rw [h31]
  exact h

lemma readLE_none {a : AddrSpace} {base : Nat} (h : a base = none) (n : Nat) :
    readLE a base (n + 1) = none := by
  unfold readLE
  rw [h]

lemma enc_zero_dead (w : Layout) (A : AImage)
    (hw : w = bash_hash_vtypes_32 ∨ w = bash_hash_vtypes_64) :
    bucket_continue w (encMem w A) 0 = false := by
  unfold bucket_continue int_gt readIntF
  have h0 : encMem w A (0 + w.times_found) = none := by
    rcases hw with rfl | rfl <;> exact encMem_low _ _ _ (by decide)
  rw [readLE_none h0 3]
  simp

lemma enc_walk_zero (w : Layout) (A : AImage)
    (hw : w = bash_hash_vtypes_32 ∨ w = bash_hash_vtypes_64) :
    ∀ fuel, walk_bucket w (encMem w A) fuel 0 = []
  | 0 => rfl
  | fuel + 1 => by
    unfold walk_bucket
    rw [enc_zero_dead w A hw]
    simp

lemma enc_walk (w : Layout) (A : AImage)
    (hw : w = bash_hash_vtypes_32 ∨ w = bash_hash_vtypes_64)
    (hA : wfA A = true) (b : Nat) (hb : b < 64) :
    ∀ rem k fuel, k < (chainAt A b).length → k + rem = (chainAt A b).length →
      rem ≤ fuel →
      walk_bucket w (encMem w A) fuel (entryAddr b k) = absFrom A b k rem
  | 0, k, fuel, hlive, hlen, hfuel => absurd hlive (by omega)
  | rem + 1, k, fuel, hlive, hlen, hfuel => by
    cases fuel with
    | zero => omega
    | succ f =>
      have hk64 : k < 64 := by
        have := wfA_chain_le hA b
        omega
      have hbounds := wfA_entry_bounds hA hlive
      unfold walk_bucket
      rw [enc_bucket_continue w A b k hw hb hk64 hlive hbounds.1]
      by_cases htf : 0 < (entryAt A b k).times_found
      · rw [if_pos (decide_eq_true htf)]
        rw [enc_entry_surfaced w A b k hw hb hk64 hlive hbounds.2]
        simp only [enc_read_next w A b k hw hb hk64 hlive]
        unfold absFrom
        rw [if_neg (by omega : ¬ (entryAt A b k).times_found = 0)]
        by_cases hk1 : k + 1 < (chainAt A b).length
        · rw [show nextVal A b k = entryAddr b (k + 1) from by
            unfold nextVal; rw [if_pos hk1]]
          rw [enc_walk w A hw hA b hb rem (k + 1) f hk1 (by omega) (by omega)]
          by_cases hfl : (entryAt A b k).flags ≤ 2
          · rw [if_pos (decide_eq_true hfl), if_pos hfl]
          · rw [if_neg (by simpa using hfl), if_neg hfl]
        · have hrem : rem = 0 := by omega
          subst hrem
          rw [show nextVal A b k = 0 from by unfold nextVal; rw [if_neg hk1]]
          rw [enc_walk_zero w A hw f]
          by_cases hfl : (entryAt A b k).flags ≤ 2
          · rw [if_pos (decide_eq_true hfl), if_pos hfl]
            rfl
          · rw [if_neg (by simpa using hfl), if_neg hfl]
            rfl
      · rw [if_neg (by simpa using htf)]
        unfold absFrom
        rw [if_pos (by omega : (entryAt A b k).times_found = 0)]

lemma slot_div_mod (b j p : Nat) (hp : 0 < p) (hj : j < p) :
    (b * p + j) / p = b ∧ (b * p + j) % p = j := by
  constructor
  · rw [Nat.add_comm, Nat.add_mul_div_right _ _ hp, Nat.div_eq_of_lt hj]
    omega
  · rw [Nat.add_comm, Nat.add_mul_mod_self_right, Nat.mod_eq_of_lt hj]

lemma enc_read_nb (w : Layout) (A : AImage)
    (hw : w = bash_hash_vtypes_32 ∨ w = bash_hash_vtypes_64) :
    readLE (encMem w A) (0x1000 + w.nbuckets) 4 = some 64 := by
  rcases hw with rfl | rfl <;>
  · simp only [bash_hash_vtypes_32, bash_hash_vtypes_64]
    apply readLE_of_leBytes
    · intro j hj
      rw [Nat.add_assoc]
      rw [encMem_table _ A _ (by simp only [bash_hash_vtypes_32, bash_hash_vtypes_64]; omega)]
      unfold tableByte
      simp only [bash_hash_vtypes_32, bash_hash_vtypes_64]
      rw [if_neg (by omega), if_pos (by omega)]
      rw [Nat.add_sub_cancel_left]
    · norm_num

lemma enc_read_ne (w : Layout) (A : AImage)
    (hw : w = bash_hash_vtypes_32 ∨ w = bash_hash_vtypes_64) :
    readLE (encMem w A) (0x1000 + w.nentries) 4 = some 2 := by
  rcases hw with rfl | rfl <;>
  · simp only [bash_hash_vtypes_32, bash_hash_vtypes_64]
    apply readLE_of_leBytes
    · intro j hj
      rw [Nat.add_assoc]
      rw [encMem_table _ A _ (by simp only [bash_hash_vtypes_32, bash_hash_vtypes_64]; omega)]
      unfold tableByte
      simp only [bash_hash_vtypes_32, bash_hash_vtypes_64]
      rw [if_neg (by omega), if_neg (by omega), if_pos (by omega)]
      rw [Nat.add_sub_cancel_left]
    · norm_num

lemma enc_read_ba (w : Layout) (A : AImage)
    (hw : w = bash_hash_vtypes_32 ∨ w = bash_hash_vtypes_64) :
    readLE (encMem w A) (0x1000 + w.bucket_array) w.ptrW = some 0x2000 := by
  rcases hw with rfl | rfl <;>
  · simp only [bash_hash_vtypes_32, bash_hash_vtypes_64]
    apply readLE_of_leBytes
    · intro j hj
      rw [Nat.add_assoc]
      rw [show (0:Nat) + j = j from by omega]
      rw [encMem_table _ A _ (by simp only [bash_hash_vtypes_32, bash_hash_vtypes_64]; omega)]
      unfold tableByte
      simp only [bash_hash_vtypes_32, bash_hash_vtypes_64]
      rw [if_pos (by omega)]
    · norm_num

lemma enc_prefilter (w : Layout) (A : AImage)
    (hw : w = bash_hash_vtypes_32 ∨ w = bash_hash_vtypes_64) :
    prefilter w (encMem w A) 0x1000 = true := by
  unfold prefilter
  rw [enc_read_nb w A hw]
  rfl

lemma enc_table_mapped (w : Layout) (A : AImage)
    (hw : w = bash_hash_vtypes_32 ∨ w = bash_hash_vtypes_64) :
    isMapped (encMem w A) 0x1000 = true := by
  have h := encMem_table w A 0 (by omega)
  rw [Nat.add_zero] at h
  unfold isMapped
  rw [h]
  rfl

lemma enc_ba_mapped (w : Layout) (A : AImage)
    (hw : w = bash_hash_vtypes_32 ∨ w = bash_hash_vtypes_64) :
    isMapped (encMem w A) 0x2000 = true := by
  have h := encMem_bucket w A 0 hw
    (by rcases hw with rfl | rfl <;> decide)
  rw [Nat.add_zero] at h
  unfold isMapped
  rw [h]
  rfl

lemma enc_is_valid (w : Layout) (A : AImage)
    (hw : w = bash_hash_vtypes_32 ∨ w = bash_hash_vtypes_64) :
    hash_is_valid w (encMem w A) 0x1000 = true := by
  unfold hash_is_valid int_is int_gt ptr_resolves readIntF
  rw [enc_table_mapped w A hw]
  simp only [enc_read_ba w A hw, enc_read_nb w A hw, enc_read_ne w A hw,
    enc_ba_mapped w A hw, Option.map_some']
  norm_num [toInt32]

lemma enc_read_head (w : Layout) (A : AImage) (b : Nat)
    (hw : w = bash_hash_vtypes_32 ∨ w = bash_hash_vtypes_64) (hb : b < 64) :
    readLE (encMem w A) (0x2000 + b * w.ptrW) w.ptrW = some (headVal A b) := by
  rcases hw with rfl | rfl <;>
  · simp only [bash_hash_vtypes_32, bash_hash_vtypes_64]
    apply readLE_of_leBytes
    · intro j hj
      rw [Nat.add_assoc]
      rw [encMem_bucket _ A _ (by first | exact Or.inl rfl | exact Or.inr rfl)
        (by simp only [bash_hash_vtypes_32, bash_hash_vtypes_64]; omega)]
      unfold bucketSlotByte
      simp only [bash_hash_vtypes_32, bash_hash_vtypes_64]
      obtain ⟨hd, hm⟩ := slot_div_mod b j _ (by omega) hj
      rw [hd, hm]
    · have h1 : headVal A b < 4294967296 := by
        unfold headVal entryAddr
        split <;> omega
      exact lt_of_lt_of_le h1 (by norm_num)

lemma flatMapL_map {α β γ : Type} (g : β → γ) (f : α → List β) (l : List α) :
    (flatMapL f l).map g = flatMapL (fun x => (f x).map g) l := by
  induction l with
  | nil => rfl
  | cons x xs ih => simp only [flatMapL, List.map_append, ih]

lemma enc_candidates (w : Layout) (A : AImage)
    (hw : w = bash_hash_vtypes_32 ∨ w = bash_hash_vtypes_64) :
    candidate_offsets w (encMem w A) 0x1000 0x1001 = [0x1000] := by
  unfold candidate_offsets scanned_offsets
  rw [show List.range' 0x1000 (0x1001 - 0x1000) = [0x1000] from by decide]
  rw [List.filter_cons, if_pos (enc_prefilter w A hw)]
  rfl

lemma enc_table_results (w : Layout) (A : AImage)
    (hw : w = bash_hash_vtypes_32 ∨ w = bash_hash_vtypes_64)
    (hA : wfA A = true) (fuel : Nat) (hf : 65 ≤ fuel) :
    table_results w (encMem w A) fuel 0x1000 =
      flatMapL (fun b => absFrom A b 0 (chainAt A b).length) (List.range 64) := by
  unfold table_results
  rw [enc_is_valid w A hw, if_pos rfl]
  simp only [enc_read_ba w A hw]
  apply flatMapL_congr
  intro i hi
  have hi64 : i < 64 := List.mem_range.mp hi
  simp only [enc_read_head w A i hw hi64]
  by_cases hlen : (chainAt A i).length = 0
  · rw [show headVal A i = 0 from by unfold headVal; rw [if_pos hlen]]
    rw [enc_walk_zero w A hw fuel, hlen]
    rfl
  · rw [show headVal A i = entryAddr i 0 from by unfold headVal; rw [if_neg hlen]]
    exact enc_walk w A hw hA i hi64 (chainAt A i).length 0 fuel
      (by omega) (by omega) (by have := wfA_chain_le hA i; omega)

lemma enc_scan (w : Layout) (A : AImage)
    (hw : w = bash_hash_vtypes_32 ∨ w = bash_hash_vtypes_64)
    (hA : wfA A = true) (fuel : Nat) (hf : 65 ≤ fuel) :
    scan_heap w (encMem w A) fuel 0x1000 0x1001 =
      flatMapL (fun b => absFrom A b 0 (chainAt A b).length) (List.range 64) := by
  unfold scan_heap
  rw [enc_candidates w A hw]
  show table_results w (encMem w A) fuel 0x1000 ++ [] = _
  rw [List.append_nil]
  exact enc_table_results w A hw hA fuel hf

lemma enc_proj (w : Layout) (A : AImage) (b k : Nat)
    (hw : w = bash_hash_vtypes_32 ∨ w = bash_hash_vtypes_64)
    (hA : wfA A = true)
    (hb : b < 64) (hlive : k < (chainAt A b).length) :
    proj_entry w (encMem w A) (entryAddr b k) =
      (some ((entryAt A b k).times_found : Int),
       some (entryAt A b k).keyB, some (entryAt A b k).pathB) := by
  have hk64 : k < 64 := by
    have := wfA_chain_le hA b
    omega
  have hbounds := wfA_entry_bounds hA hlive
  unfold proj_entry
  rw [enc_read_tf w A b k hw hb hk64 hlive hbounds.1]
  simp only [enc_read_key w A b k hw hb hk64 hlive,
    enc_read_data w A b k hw hb hk64 hlive,
    enc_read_path w A b k hw hb hk64 hlive]
  rw [encMem_key w A b k hw hb hk64, if_pos hlive]
  rw [encMem_path w A b k hw hb hk64, if_pos hlive]

lemma absFrom_map_proj (w : Layout) (A : AImage)
    (hw : w = bash_hash_vtypes_32 ∨ w = bash_hash_vtypes_64)
    (hA : wfA A = true) (b : Nat) (hb : b < 64) :
    ∀ rem k, k + rem = (chainAt A b).length →
      (absFrom A b k rem).map (proj_entry w (encMem w A)) = absProjFrom A b k rem
  | 0, k, hlen => rfl
  | rem + 1, k, hlen => by
    have hlive : k < (chainAt A b).length := by omega
    unfold absFrom absProjFrom
    by_cases htf : (entryAt A b k).times_found = 0
    · rw [if_pos htf, if_pos htf]
      rfl
    · rw [if_neg htf, if_neg htf]
      rw [List.map_append]
      rw [absFrom_map_proj w A hw hA b hb rem (k + 1) (by omega)]
      by_cases hfl : (entryAt A b k).flags ≤ 2
      · rw [if_pos hfl, if_pos hfl]
        rw [show List.map (proj_entry w (encMem w A)) [entryAddr b k] =
            [proj_entry w (encMem w A) (entryAddr b k)] from rfl]
        rw [enc_proj w A b k hw hA hb hlive]
      · rw [if_neg hfl, if_neg hfl]
        rfl

lemma enc_logical (w : Layout) (A : AImage)
    (hw : w = bash_hash_vtypes_32 ∨ w = bash_hash_vtypes_64)
    (hA : wfA A = true) (fuel : Nat) (hf : 65 ≤ fuel) :
    logical_results w (encMem w A) fuel 0x1000 0x1001 = absLogical A := by
  unfold logical_results absLogical
  rw [enc_scan w A hw hA fuel hf]
  rw [flatMapL_map]
  apply flatMapL_congr
  intro b hbm
  exact absFrom_map_proj w A hw hA b (List.mem_range.mp hbm)
    (chainAt A b).length 0 (by omega)

/-- C8: the narrow (32-bit) and wide (64-bit) Layout Catalog entries,
applied to the structurally equivalent synthetic buffers encoding the same
abstract image under their respective layouts, produce identical logical
result sequences (usage count, key content, path content), differing only
in pointer widths and field offsets. -/
theorem width_profiles_equivalent (A : AImage) (fuel : Nat)
    (hA : wfA A = true) (hf : 65 ≤ fuel) :
    logical_results bash_hash_vtypes_32 (encMem bash_hash_vtypes_32 A)
        fuel 0x1000 0x1001 =
      logical_results bash_hash_vtypes_64 (encMem bash_hash_vtypes_64 A)
        fuel 0x1000 0x1001 := by
  rw [enc_logical bash_hash_vtypes_32 A (Or.inl rfl) hA fuel hf,
    enc_logical bash_hash_vtypes_64 A (Or.inr rfl) hA fuel hf]


/-- Witness for C8 at a concrete abstract image: one bucket with two
entries, encoded under both layouts, yields the same logical results. -/
theorem width_profiles_equivalent_witness :
    wfA c8img = true ∧
    logical_results bash_hash_vtypes_32 (encMem bash_hash_vtypes_32 c8img)
        65 0x1000 0x1001 =
      logical_results bash_hash_vtypes_64 (encMem bash_hash_vtypes_64 c8img)
        65 0x1000 0x1001 :=
  ⟨by decide, width_profiles_equivalent c8img 65 (by decide) (by decide)⟩
